import Mathlib

/-!
Verification of the standings-to-Cann transformer of `cann/cann.go`
(package `cann` of the `moh` repository).

The Go function `generateCann` decodes a JSON standings payload into a
`DataResponse`, extracts `dataResponse.Standings[0].Table`, reads the
points of the first and last entries as `maxPoints` and `minPoints`,
allocates `make([]Row, maxPoints-minPoints+1)` rows with descending
point values, and appends a formatted descriptor for every entry to the
row at offset `maxPoints - entry.Points`.

The embedding below models the transformer on already-decoded data
(JSON decoding and HTML template rendering are boundary collaborators).
Go runtime panics that the transformer can hit (indexing out of range,
`make` with a negative length) are modelled explicitly as a `panicked`
result, kept distinct from a returned Go error value (`goError`) and
from a normal return (`ok`). Go's `int` (and `type Points int`) is a
fixed-width 64-bit type whose arithmetic wraps: every arithmetic step
of the transformer is therefore reduced with `wrap64`, so that e.g. the
sorted extreme table with points 2^63-1 and -2 makes the computed
allocation length wrap negative and panic, exactly as the program does.
-/

namespace Moh.Cann

/-- Points models the Go `type Points int` (cann.go line 16); it is an
alias for `Int`, and the fields below use `Int` directly so that
arithmetic automation sees through it. Every value a Go `int` variable
can hold lies in the 64-bit range `InInt64` below, and every arithmetic
operation on it wraps via `wrap64` below. -/
abbrev Points : Type := Int

/-- wrap64 is two's-complement reduction into Go's 64-bit `int` range:
Go arithmetic on `int` (hence on `Points`) wraps modulo 2^64 into
[-2^63, 2^63) instead of growing unboundedly. The numerals are 2^63
and 2^64. -/
def wrap64 (x : Int) : Int :=
  (x + 9223372036854775808) % 18446744073709551616 - 9223372036854775808

/-- InInt64 says an integer lies in Go's 64-bit `int` range
[-2^63, 2^63), as every field decoded from JSON into an `int` does. -/
abbrev InInt64 (x : Int) : Prop :=
  -9223372036854775808 ≤ x ∧ x < 9223372036854775808

/-- Row models the Go `Row` struct (cann.go lines 19-22): the point
value of a Cann-table row and the accumulated teams string. -/
structure Row where
  points : Int
  teams : String
deriving DecidableEq

/-- Team models the Go `Team` struct (cann.go lines 25-28). -/
structure Team where
  id : Int
  shortName : String
deriving DecidableEq

/-- TableRow models the Go `TableRow` struct (cann.go lines 31-37): one
standings entry as decoded from the provider payload. -/
structure TableRow where
  team : Team
  position : Int
  played : Int
  points : Int
  goalDiff : Int
deriving DecidableEq

/-- Standings models the Go `Standings` struct (cann.go lines 40-42). -/
structure Standings where
  table : List TableRow
deriving DecidableEq

/-- DataResponse models the Go `DataResponse` struct (cann.go
lines 45-47): the decoded top-level payload. -/
structure DataResponse where
  standings : List Standings
deriving DecidableEq

/-- GoPanic enumerates the Go runtime panics reachable inside
`generateCann`: slice indexing out of range, and `make` called with a
negative length. -/
inductive GoPanic where
  | indexOutOfRange
  | makesliceNegative
deriving DecidableEq

/-- CannResult is the observable outcome of the transformer: a normal
return carrying the Cann rows, a returned Go error value, or a runtime
panic. Inside the modelled region (after JSON decoding, before template
rendering) the Go code has no `return err` statement, so `goError` is
never produced there; it exists to state claims about error values. -/
inductive CannResult where
  | ok (rows : List Row)
  | goError (msg : String)
  | panicked (p : GoPanic)
deriving DecidableEq

/-- isOk tests for a normal return. -/
def CannResult.isOk : CannResult → Bool
  | .ok _ => true
  | _ => false

/-- isGoError tests for a returned Go error value. -/
def CannResult.isGoError : CannResult → Bool
  | .goError _ => true
  | _ => false

/-- fmtD models the Go verb `%d` on an `int`: decimal digits, with a
leading minus sign for negative values, no sign otherwise. -/
def fmtD (i : Int) : String := toString i

/-- fmtPlusD models the Go verb `%+d` on an `int`: the sign is always
emitted, a `+` for zero and positive values, a `-` for negative ones. -/
def fmtPlusD (i : Int) : String :=
  if 0 ≤ i then "+" ++ toString i else toString i

/-- rowData models `fmt.Sprintf(rowFormat, row.Position,
row.Team.ShortName, row.Played, row.GoalDiff)` with
`rowFormat = "[%d]%s(%d, %+d)"` (cann.go lines 127, 132). -/
def rowData (row : TableRow) : String :=
  "[" ++ fmtD row.position ++ "]" ++ row.team.shortName ++
    "(" ++ fmtD row.played ++ ", " ++ fmtPlusD row.goalDiff ++ ")"

/-- teamSegment models `fmt.Sprintf(" - %v", rowData)` (cann.go
line 133): the string appended to the target row's `Teams`. -/
def teamSegment (row : TableRow) : String :=
  " - " ++ rowData row

/-- lastEntry computes `standingsTable[len(standingsTable)-1]` for the
non-empty table `first :: rest` (cann.go line 119). -/
def lastEntry (first : TableRow) : List TableRow → TableRow
  | [] => first
  | x :: xs => lastEntry x xs

/-- initCannTable models `make([]Row, n)` followed by the loop setting
`cannTable[i].Points = maxPoints - Points(i)` (cann.go lines 122-125);
fresh `Row` values have the empty string as `Teams`, and the `int`
subtraction wraps. -/
def initCannTable (maxPoints : Int) (n : Nat) : List Row :=
  (List.range n).map
    (fun i : Nat => { points := wrap64 (maxPoints - (i : Int)), teams := "" })

/-- appendTeams appends the string `s` to the `teams` field of the row
at position `i`, leaving every other row unchanged; it models
`cannTable[index].Teams += s` once the index is known to be in range. -/
def appendTeams : List Row → Nat → String → List Row
  | [], _, _ => []
  | r :: rs, 0, s => { r with teams := r.teams ++ s } :: rs
  | r :: rs, i + 1, s => r :: appendTeams rs i s

/-- assignTeams models the second loop of `generateCann` (cann.go
lines 130-134): for each standings entry, `index := maxPoints -
row.Points` and the entry's formatted segment is appended to
`cannTable[index].Teams`. The index subtraction wraps in 64-bit `int`
arithmetic, and a Go slice access with `index < 0` or
`index >= len(cannTable)` panics with index out of range. -/
def assignTeams (maxPoints : Int) : List TableRow → List Row → Except GoPanic (List Row)
  | [], cannTable => .ok cannTable
  | row :: rest, cannTable =>
    let index := wrap64 (maxPoints - row.points)
    if 0 ≤ index ∧ index.toNat < cannTable.length then
      assignTeams maxPoints rest (appendTeams cannTable index.toNat (teamSegment row))
    else
      .error .indexOutOfRange

/-- cannFromTable models the body of `generateCann` from the extracted
`standingsTable` onwards (cann.go lines 118-134). An empty table makes
`standingsTable[0]` panic; `maxPoints-minPoints+1` is computed with
wrapping 64-bit `int` arithmetic (one wrap per operation), and a
negative result makes `make` panic; otherwise the rows are initialised
and filled. -/
def cannFromTable : List TableRow → CannResult
  | [] => .panicked .indexOutOfRange
  | first :: rest =>
    let maxPoints := first.points
    let minPoints := (lastEntry first rest).points
    let size := wrap64 (wrap64 (maxPoints - minPoints) + 1)
    if size < 0 then
      .panicked .makesliceNegative
    else
      match assignTeams maxPoints (first :: rest)
          (initCannTable maxPoints size.toNat) with
      | .ok rows => .ok rows
      | .error p => .panicked p

/-- generateCann models the Go `generateCann` on an already-decoded
payload (cann.go lines 110-134, after `json.Unmarshal`): it reads
`dataResponse.Standings[0].Table` — an unguarded index that panics when
the standings list is empty — and hands the table to the core. -/
def generateCann (dataResponse : DataResponse) : CannResult :=
  match dataResponse.standings with
  | [] => .panicked .indexOutOfRange
  | s :: _ => cannFromTable s.table

/-- concatAll concatenates a list of strings in order; it describes the
cumulative effect of the Go `+=` string accumulation on one row. -/
def concatAll : List String → String
  | [] => ""
  | s :: ss => s ++ concatAll ss

/-- ContainsStr d s says that the string `d` occurs contiguously inside
the string `s`. -/
def ContainsStr (s d : String) : Prop :=
  ∃ pre post, s = pre ++ d ++ post

/-- SortedByPointsDesc is the provider's ordering contract: every
earlier entry has at least as many points as every later one (ties
allowed). -/
abbrev SortedByPointsDesc (table : List TableRow) : Prop :=
  table.Pairwise (fun a b => b.points ≤ a.points)

/-! ### String, arithmetic and list helper lemmas -/

/-- Within Go's 64-bit range, wrapping arithmetic agrees with exact
integer arithmetic. -/
theorem wrap64_eq_self (x : Int) (h1 : -9223372036854775808 ≤ x)
    (h2 : x < 9223372036854775808) : wrap64 x = x := by
  unfold wrap64
  omega

theorem strAppend_assoc (a b c : String) : a ++ b ++ c = a ++ (b ++ c) := by
  apply String.ext
  simp

theorem strAppend_empty (a : String) : a ++ "" = a := by
  apply String.ext
  simp

theorem strEmpty_append (a : String) : "" ++ a = a := by
  apply String.ext
  simp

theorem toString_int_neg (i : Int) (h : i < 0) : toString i = "-" ++ toString (-i) := by
  match i with
  | .ofNat m => exact absurd h (by rw [Int.ofNat_eq_coe]; omega)
  | .negSucc m => rfl

theorem concatAll_mem_infix (s : String) : ∀ l : List String, s ∈ l →
    ∃ pre post, concatAll l = pre ++ s ++ post := by
  intro l hl
  induction l with
  | nil => cases hl
  | cons a as ih =>
    rcases List.mem_cons.mp hl with h | h
    · exact ⟨"", concatAll as, by rw [h, concatAll, strEmpty_append]⟩
    · obtain ⟨pre, post, hp⟩ := ih h
      exact ⟨a ++ pre, post, by rw [concatAll, hp, ← strAppend_assoc, ← strAppend_assoc]⟩

/-! ### Facts about the sorted-input bounds -/

theorem lastEntry_mem (first : TableRow) : ∀ rest : List TableRow,
    lastEntry first rest ∈ first :: rest := by
  intro rest
  induction rest generalizing first with
  | nil => simp [lastEntry]
  | cons y ys ih =>
    rw [lastEntry]
    exact List.mem_cons_of_mem first (ih y)

theorem sorted_le_head (first : TableRow) (rest : List TableRow)
    (hs : SortedByPointsDesc (first :: rest)) :
    ∀ x ∈ first :: rest, x.points ≤ first.points := by
  intro x hx
  rcases List.mem_cons.mp hx with h | h
  · rw [h]
  · exact (List.pairwise_cons.mp hs).1 x h

theorem lastEntry_le (first : TableRow) (rest : List TableRow)
    (hs : SortedByPointsDesc (first :: rest)) :
    ∀ x ∈ first :: rest, (lastEntry first rest).points ≤ x.points := by
  induction rest generalizing first with
  | nil =>
    intro x hx
    rw [List.mem_singleton.mp hx]
    exact le_refl _
  | cons y ys ih =>
    intro x hx
    have htail : SortedByPointsDesc (y :: ys) := (List.pairwise_cons.mp hs).2
    rcases List.mem_cons.mp hx with h | h
    · rw [h, lastEntry]
      exact (List.pairwise_cons.mp hs).1 _ (lastEntry_mem y ys)
    · rw [lastEntry]
      exact ih y htail x h

/-! ### Behaviour of the row-update helpers -/

theorem appendTeams_length (s : String) : ∀ (rows : List Row) (i : Nat),
    (appendTeams rows i s).length = rows.length := by
  intro rows
  induction rows with
  | nil => intro i; rfl
  | cons r rs ih =>
    intro i
    cases i with
    | zero => simp [appendTeams]
    | succ i => simp [appendTeams, ih]

theorem appendTeams_getElem (s : String) : ∀ (rows : List Row) (i j : Nat),
    (appendTeams rows i s)[j]? =
      if i = j then (rows[j]?).map (fun r => { r with teams := r.teams ++ s })
      else rows[j]? := by
  intro rows
  induction rows with
  | nil =>
    intro i j
    simp [appendTeams]
  | cons r rs ih =>
    intro i j
    cases i with
    | zero =>
      cases j with
      | zero => simp [appendTeams]
      | succ k => simp [appendTeams]
    | succ i =>
      cases j with
      | zero => simp [appendTeams]
      | succ k => simpa [appendTeams] using ih i k

theorem initCannTable_length (maxPoints : Int) (n : Nat) :
    (initCannTable maxPoints n).length = n := by
  simp [initCannTable]

theorem initCannTable_getElem (maxPoints : Int) (n : Nat) (j : Nat) (hj : j < n) :
    (initCannTable maxPoints n)[j]? =
      some { points := wrap64 (maxPoints - (j : Int)), teams := "" } := by
  simp [initCannTable, List.getElem?_map, List.getElem?_range, hj]

/-! ### Exact characterisation of the filling loop -/

theorem assignTeams_spec (maxPoints : Int) :
    ∀ (entries : List TableRow) (cannTable : List Row),
    (∀ x ∈ entries, 0 ≤ maxPoints - x.points ∧
      maxPoints - x.points < 9223372036854775808 ∧
      (maxPoints - x.points).toNat < cannTable.length) →
    ∃ result : List Row, assignTeams maxPoints entries cannTable = .ok result ∧
      result.length = cannTable.length ∧
      ∀ (j : Nat) (r : Row), cannTable[j]? = some r →
        result[j]? = some ⟨r.points,
          r.teams ++ concatAll ((entries.filter
            (fun x => maxPoints - x.points == (j : Int))).map teamSegment)⟩ := by
  intro entries
  induction entries with
  | nil =>
    intro cannTable _
    refine ⟨cannTable, rfl, rfl, ?_⟩
    intro j r hj
    simpa [concatAll, strAppend_empty] using hj
  | cons row rest ih =>
    intro cannTable hb
    have hcond : 0 ≤ maxPoints - row.points ∧
        maxPoints - row.points < 9223372036854775808 ∧
        (maxPoints - row.points).toNat < cannTable.length :=
      hb row (List.mem_cons_self row rest)
    have hw : wrap64 (maxPoints - row.points) = maxPoints - row.points :=
      wrap64_eq_self _ (by omega) hcond.2.1
    have hct1len : (appendTeams cannTable (maxPoints - row.points).toNat
        (teamSegment row)).length = cannTable.length :=
      appendTeams_length _ _ _
    obtain ⟨result, heq, hlen, hget⟩ :=
      ih (appendTeams cannTable (maxPoints - row.points).toNat (teamSegment row))
        (fun x hx => by rw [hct1len]; exact hb x (List.mem_cons_of_mem _ hx))
    refine ⟨result, ?_, ?_, ?_⟩
    · simp only [assignTeams]
      rw [hw, if_pos ⟨hcond.1, hcond.2.2⟩]
      exact heq
    · rw [hlen, hct1len]
    · intro j r hj
      have h1 := appendTeams_getElem (teamSegment row) cannTable
        (maxPoints - row.points).toNat j
      by_cases hij : (maxPoints - row.points).toNat = j
      · have hj1 : (appendTeams cannTable (maxPoints - row.points).toNat
            (teamSegment row))[j]? =
            some ⟨r.points, r.teams ++ teamSegment row⟩ := by
          rw [h1, if_pos hij, hj]
          rfl
        have h2 := hget j _ hj1
        rw [h2]
        have hcondj : (maxPoints - row.points == (j : Int)) = true := by
          rw [beq_iff_eq]
          omega
        simp only [List.filter_cons, hcondj, if_true, List.map_cons, concatAll]
        rw [strAppend_assoc]
      · have hj1 : (appendTeams cannTable (maxPoints - row.points).toNat
            (teamSegment row))[j]? = some r := by
          rw [h1, if_neg hij, hj]
        have h2 := hget j r hj1
        rw [h2]
        have hcondj : (maxPoints - row.points == (j : Int)) = false := by
          rw [beq_eq_false_iff_ne]
          intro hv
          exact hij (by omega)
        simp only [List.filter_cons, hcondj]
        rw [if_neg (by simp)]

/-- cannFromTable_spec is the master characterisation: on a non-empty
table sorted by descending points, whose points values are in-range
64-bit ints, and whose spread `maxPoints - minPoints + 1` does not
overflow int64, wrapping arithmetic agrees with exact arithmetic
everywhere, the transformer returns normally, the row count is
`maxPoints - minPoints + 1`, and the row at offset `j` carries
`points = maxPoints - j` and exactly the concatenation, in input order,
of the segments of the entries whose points match. -/
theorem cannFromTable_spec (first : TableRow) (rest : List TableRow)
    (hs : SortedByPointsDesc (first :: rest))
    (hrange : ∀ x ∈ first :: rest, InInt64 x.points)
    (hspread : first.points - (lastEntry first rest).points + 1 < 9223372036854775808) :
    ∃ rows : List Row, cannFromTable (first :: rest) = .ok rows ∧
      (rows.length : Int) = first.points - (lastEntry first rest).points + 1 ∧
      ∀ j : Nat, j < rows.length →
        rows[j]? = some ⟨first.points - (j : Int),
          concatAll (((first :: rest).filter
            (fun x => first.points - x.points == (j : Int))).map teamSegment)⟩ := by
  have hminmax : (lastEntry first rest).points ≤ first.points :=
    lastEntry_le first rest hs first (List.mem_cons_self first rest)
  have hfr : InInt64 first.points := hrange first (List.mem_cons_self first rest)
  have hlr : InInt64 (lastEntry first rest).points :=
    hrange _ (lastEntry_mem first rest)
  have hw1 : wrap64 (first.points - (lastEntry first rest).points) =
      first.points - (lastEntry first rest).points :=
    wrap64_eq_self _ (by omega) (by omega)
  have hw2 : wrap64 (first.points - (lastEntry first rest).points + 1) =
      first.points - (lastEntry first rest).points + 1 :=
    wrap64_eq_self _ (by omega) (by omega)
  have hsize : ¬ (first.points - (lastEntry first rest).points + 1 < 0) := by omega
  have hbounds : ∀ x ∈ first :: rest, 0 ≤ first.points - x.points ∧
      first.points - x.points < 9223372036854775808 ∧
      (first.points - x.points).toNat <
        (initCannTable first.points
          (first.points - (lastEntry first rest).points + 1).toNat).length := by
    intro x hx
    have h1 : x.points ≤ first.points := sorted_le_head first rest hs x hx
    have h2 : (lastEntry first rest).points ≤ x.points := lastEntry_le first rest hs x hx
    rw [initCannTable_length]
    refine ⟨by omega, by omega, by omega⟩
  obtain ⟨result, heq, hlen, hget⟩ :=
    assignTeams_spec first.points (first :: rest)
      (initCannTable first.points
        (first.points - (lastEntry first rest).points + 1).toNat) hbounds
  refine ⟨result, ?_, ?_, ?_⟩
  · simp only [cannFromTable]
    rw [hw1, hw2, if_neg hsize, heq]
  · rw [hlen, initCannTable_length]
    omega
  · intro j hj
    have hjn : j < (first.points - (lastEntry first rest).points + 1).toNat := by
      rw [hlen, initCannTable_length] at hj
      exact hj
    have hwj : wrap64 (first.points - (j : Int)) = first.points - (j : Int) :=
      wrap64_eq_self _ (by omega) (by omega)
    have hinit := initCannTable_getElem first.points
      (first.points - (lastEntry first rest).points + 1).toNat j hjn
    rw [hwj] at hinit
    have h2 := hget j _ hinit
    rw [h2, strEmpty_append]

/-- Summing, over all row offsets, the number of entries whose computed
offset matches, recovers the total number of entries: every entry lands
in exactly one row. -/
theorem sum_filter_lengths (f : TableRow → Int) (n : Nat) :
    ∀ l : List TableRow, (∀ x ∈ l, 0 ≤ f x ∧ (f x).toNat < n) →
    (∑ j in Finset.range n, (l.filter (fun x => f x == (j : Int))).length) = l.length := by
  intro l
  induction l with
  | nil =>
    intro _
    simp
  | cons a l ih =>
    intro h
    have hb := h a (List.mem_cons_self a l)
    have hstep : ∀ j ∈ Finset.range n,
        ((a :: l).filter (fun x => f x == (j : Int))).length =
        (l.filter (fun x => f x == (j : Int))).length +
          (if (f a).toNat = j then 1 else 0) := by
      intro j _
      by_cases hj : (f a).toNat = j
      · have hc : (f a == (j : Int)) = true := by
          rw [beq_iff_eq]
          omega
        simp [List.filter_cons, hc, hj, Nat.add_comm]
      · have hc : (f a == (j : Int)) = false := by
          rw [beq_eq_false_iff_ne]
          intro hv
          exact hj (by omega)
        simp [List.filter_cons, hc, hj]
    rw [Finset.sum_congr rfl hstep, Finset.sum_add_distrib,
      ih (fun x hx => h x (List.mem_cons_of_mem a hx))]
    have hone : (∑ j in Finset.range n, (if (f a).toNat = j then 1 else 0)) = 1 := by
      rw [Finset.sum_ite_eq]
      simp [hb.2]
    rw [hone]
    simp

/-! ### Concrete inputs used by witnesses and counterexamples -/

/-- exFirst is the top entry of the worked example of the spec (ARS on
25 points). -/
def exFirst : TableRow := ⟨⟨1, "ARS"⟩, 1, 10, 25, 12⟩

/-- exRest is the remainder of the worked example of the spec (LIV tied
on 25 points, MCI on 22). -/
def exRest : List TableRow := [⟨⟨2, "LIV"⟩, 2, 10, 25, 8⟩, ⟨⟨3, "MCI"⟩, 3, 10, 22, 15⟩]

/-- unsortedC1 is an ascending (precondition-violating) table: first
entry 0 points, last entry 2 points, so `make` is asked for -1 rows. -/
def unsortedC1 : List TableRow := [⟨⟨1, "AAA"⟩, 1, 2, 0, 0⟩, ⟨⟨2, "BBB"⟩, 2, 2, 2, 0⟩]

/-- unsortedC2 is an ascending (precondition-violating) table: first
entry 3 points, last entry 7 points, so `make` is asked for -3 rows. -/
def unsortedC2 : List TableRow := [⟨⟨1, "DDD"⟩, 1, 2, 3, 0⟩, ⟨⟨2, "EEE"⟩, 2, 2, 7, 0⟩]

/-- unsortedC7 is a non-monotone table whose first and last entries tie
on 5 points while a middle entry has 4, driving the bucket index out of
range. -/
def unsortedC7 : List TableRow :=
  [⟨⟨1, "FFF"⟩, 1, 2, 5, 0⟩, ⟨⟨2, "GGG"⟩, 2, 2, 4, 0⟩, ⟨⟨3, "HHH"⟩, 3, 2, 5, 0⟩]

/-- emptyTableResponse is a decoded payload whose single standings
object has an empty table, as from `{"standings":[{"table":[]}]}`. -/
def emptyTableResponse : DataResponse := ⟨[⟨[]⟩]⟩

/-- emptyStandingsResponse is a decoded payload whose top-level
standings list is empty, as from `{"standings":[]}` or `{}`. -/
def emptyStandingsResponse : DataResponse := ⟨[]⟩

/-- wrapTable is sorted by descending points and JSON-decodable, yet its
extreme int64 points 2^63-1 (first) and -2 (last) make the Go `int`
computation maxPoints-minPoints+1 wrap to a negative length, so `make`
panics. -/
def wrapTable : List TableRow :=
  [⟨⟨1, "III"⟩, 1, 2, 9223372036854775807, 0⟩, ⟨⟨2, "JJJ"⟩, 2, 2, -2, 0⟩]

/-- wrapTieTable is a sorted table with two entries tied on the extreme
points value 2^63-1 and a last entry on -2, so a tie exists while the
Go `int` spread computation still wraps negative and `make` panics. -/
def wrapTieTable : List TableRow :=
  [⟨⟨1, "KKK"⟩, 1, 2, 9223372036854775807, 0⟩,
    ⟨⟨2, "LLL"⟩, 2, 2, 9223372036854775807, 0⟩,
    ⟨⟨3, "MMM"⟩, 3, 2, -2, 0⟩]

/-! ### Claim C1 -/

/-- C1 counterexample: the claim quantifies over every non-empty table,
but on an ascending table whose last entry outscores the first by more
than one, `make([]Row, maxPoints-minPoints+1)` is called with -1 and
panics, so no output rows exist at all (let alone -1 of them). -/
theorem c1_row_count_counterexample :
    cannFromTable unsortedC1 = .panicked .makesliceNegative ∧
    ¬ ∃ rows : List Row, cannFromTable unsortedC1 = .ok rows := by
  refine ⟨by decide, ?_⟩
  rintro ⟨rows, h⟩
  rw [show cannFromTable unsortedC1 = .panicked .makesliceNegative by decide] at h
  exact CannResult.noConfusion h

/-- C1 (amended): for every non-empty input standings table sorted by
descending points, with all points values in the 64-bit int range and a
spread maxPoints - minPoints + 1 that does not overflow int64, the
transformer returns normally and the number of output Cann rows equals
maxPoints - minPoints + 1, where maxPoints is the points of the first
entry and minPoints the points of the last. -/
theorem c1_row_count (first : TableRow) (rest : List TableRow)
    (hs : SortedByPointsDesc (first :: rest))
    (hrange : ∀ x ∈ first :: rest, InInt64 x.points)
    (hspread : first.points - (lastEntry first rest).points + 1 < 9223372036854775808) :
    ∃ rows : List Row, cannFromTable (first :: rest) = .ok rows ∧
      (rows.length : Int) = first.points - (lastEntry first rest).points + 1 := by
  obtain ⟨rows, h1, h2, _⟩ := cannFromTable_spec first rest hs hrange hspread
  exact ⟨rows, h1, h2⟩

/-- C1 witness: the amended row-count theorem applied to the worked
example of the spec (points 25, 25, 22 give 4 rows). -/
theorem c1_row_count_witness :
    SortedByPointsDesc (exFirst :: exRest) ∧
    (∀ x ∈ exFirst :: exRest, InInt64 x.points) ∧
    exFirst.points - (lastEntry exFirst exRest).points + 1 < 9223372036854775808 ∧
    (∃ rows : List Row, cannFromTable (exFirst :: exRest) = .ok rows ∧
      (rows.length : Int) = exFirst.points - (lastEntry exFirst exRest).points + 1) :=
  ⟨by decide, by decide, by decide,
    c1_row_count exFirst exRest (by decide) (by decide) (by decide)⟩

/-- A getElem? hit implies the index is within bounds. -/
theorem getElem?_some_lt {α : Type} (l : List α) (j : Nat) (a : α)
    (h : l[j]? = some a) : j < l.length := by
  by_contra hj
  rw [List.getElem?_eq_none (by omega)] at h
  exact Option.noConfusion h

/-! ### Claim C2 -/

/-- C2 counterexample: the claim quantifies over every non-empty input,
but on an ascending table (3 points first, 7 points last) the allocation
size is -3, `make` panics, and no rows — dense axis or otherwise —
appear at all. -/
theorem c2_dense_axis_counterexample :
    cannFromTable unsortedC2 = .panicked .makesliceNegative ∧
    ¬ ∃ rows : List Row, cannFromTable unsortedC2 = .ok rows := by
  refine ⟨by decide, ?_⟩
  rintro ⟨rows, h⟩
  rw [show cannFromTable unsortedC2 = .panicked .makesliceNegative by decide] at h
  exact CannResult.noConfusion h

/-- C2 (amended): for every non-empty input sorted by descending
points, with in-range int64 points and a spread maxPoints-minPoints+1
that does not overflow int64, the output has exactly
maxPoints - minPoints + 1 rows forming a dense, strictly descending
point axis — the row at 0-based offset j has points maxPoints - j and
adjacent rows differ by exactly one point — and every point value in
[minPoints, maxPoints] has a row, which, when no team holds that value,
still appears with an empty teams description. -/
theorem c2_dense_axis (first : TableRow) (rest : List TableRow)
    (hs : SortedByPointsDesc (first :: rest))
    (hrange : ∀ x ∈ first :: rest, InInt64 x.points)
    (hspread : first.points - (lastEntry first rest).points + 1 < 9223372036854775808) :
    ∃ rows : List Row, cannFromTable (first :: rest) = .ok rows ∧
      (rows.length : Int) = first.points - (lastEntry first rest).points + 1 ∧
      (∀ (j : Nat) (r : Row), rows[j]? = some r → r.points = first.points - (j : Int)) ∧
      (∀ (j : Nat) (r r' : Row), rows[j]? = some r → rows[j + 1]? = some r' →
        r.points = r'.points + 1) ∧
      (∀ p : Int, (lastEntry first rest).points ≤ p → p ≤ first.points →
        ∃ (j : Nat) (r : Row), rows[j]? = some r ∧ r.points = p ∧
          ((∀ x ∈ first :: rest, x.points ≠ p) → r.teams = "")) := by
  obtain ⟨rows, h1, h2, h3⟩ := cannFromTable_spec first rest hs hrange hspread
  refine ⟨rows, h1, h2, ?_, ?_, ?_⟩
  · intro j r hj
    have hlt := getElem?_some_lt rows j r hj
    have he := h3 j hlt
    rw [hj] at he
    rw [Option.some.inj he]
  · intro j r r' hj hj'
    have hlt' := getElem?_some_lt rows (j + 1) r' hj'
    have hlt : j < rows.length := by omega
    have e1 := h3 j hlt
    have e2 := h3 (j + 1) hlt'
    rw [hj] at e1
    rw [hj'] at e2
    rw [Option.some.inj e1, Option.some.inj e2]
    show first.points - (j : Int) = first.points - ((j + 1 : Nat) : Int) + 1
    push_cast
    ring
  · intro p hp1 hp2
    have h0 : 0 ≤ first.points - p := by omega
    have hjlt : (first.points - p).toNat < rows.length := by omega
    have hrow := h3 _ hjlt
    refine ⟨(first.points - p).toNat, _, hrow, ?_, ?_⟩
    · show first.points - (((first.points - p).toNat : Nat) : Int) = p
      omega
    · intro hnone
      show concatAll (((first :: rest).filter
        (fun x => first.points - x.points ==
          (((first.points - p).toNat : Nat) : Int))).map teamSegment) = ""
      have hfil : (first :: rest).filter
          (fun x => first.points - x.points ==
            (((first.points - p).toNat : Nat) : Int)) = [] := by
        rw [List.filter_eq_nil_iff]
        intro x hx
        simp only [beq_iff_eq]
        intro hv
        exact hnone x hx (by omega)
      rw [hfil]
      rfl

/-- C2 witness: the amended dense-axis theorem applied to the worked
example of the spec. -/
theorem c2_dense_axis_witness :
    SortedByPointsDesc (exFirst :: exRest) ∧
    (∀ x ∈ exFirst :: exRest, InInt64 x.points) ∧
    exFirst.points - (lastEntry exFirst exRest).points + 1 < 9223372036854775808 ∧
    (∃ rows : List Row, cannFromTable (exFirst :: exRest) = .ok rows ∧
      (rows.length : Int) = exFirst.points - (lastEntry exFirst exRest).points + 1 ∧
      (∀ (j : Nat) (r : Row), rows[j]? = some r → r.points = exFirst.points - (j : Int)) ∧
      (∀ (j : Nat) (r r' : Row), rows[j]? = some r → rows[j + 1]? = some r' →
        r.points = r'.points + 1) ∧
      (∀ p : Int, (lastEntry exFirst exRest).points ≤ p → p ≤ exFirst.points →
        ∃ (j : Nat) (r : Row), rows[j]? = some r ∧ r.points = p ∧
          ((∀ x ∈ exFirst :: exRest, x.points ≠ p) → r.teams = ""))) :=
  ⟨by decide, by decide, by decide,
    c2_dense_axis exFirst exRest (by decide) (by decide) (by decide)⟩

/-! ### Claim C3 -/

/-- C3 counterexample: the claim quantifies over every sorted non-empty
input, but on the sorted, decodable table with extreme int64 points
2^63-1 and -2 the Go spread computation wraps negative, `make` panics,
and no output rows exist, so no row contains either entry's
descriptor. -/
theorem c3_placement_counterexample :
    SortedByPointsDesc wrapTable ∧
    cannFromTable wrapTable = .panicked .makesliceNegative ∧
    ¬ ∃ rows : List Row, cannFromTable wrapTable = .ok rows := by
  refine ⟨by decide, by decide, ?_⟩
  rintro ⟨rows, h⟩
  rw [show cannFromTable wrapTable = .panicked .makesliceNegative by decide] at h
  exact CannResult.noConfusion h

/-- C3 (amended): for every non-empty input sorted by descending
points, with in-range int64 points and a spread maxPoints-minPoints+1
that does not overflow int64, every input entry has an output row with
that entry's points containing the entry's formatted descriptor —
position, short name, games played, goal difference — inside its
teams-description string. -/
theorem c3_placement (first : TableRow) (rest : List TableRow)
    (hs : SortedByPointsDesc (first :: rest))
    (hrange : ∀ x ∈ first :: rest, InInt64 x.points)
    (hspread : first.points - (lastEntry first rest).points + 1 < 9223372036854775808) :
    ∃ rows : List Row, cannFromTable (first :: rest) = .ok rows ∧
      ∀ x ∈ first :: rest, ∃ (j : Nat) (r : Row), rows[j]? = some r ∧
        r.points = x.points ∧ ContainsStr r.teams (rowData x) := by
  obtain ⟨rows, h1, h2, h3⟩ := cannFromTable_spec first rest hs hrange hspread
  refine ⟨rows, h1, ?_⟩
  intro x hx
  have hxmax : x.points ≤ first.points := sorted_le_head first rest hs x hx
  have hxmin : (lastEntry first rest).points ≤ x.points := lastEntry_le first rest hs x hx
  have h0 : 0 ≤ first.points - x.points := by omega
  have hjlt : (first.points - x.points).toNat < rows.length := by omega
  have hrow := h3 _ hjlt
  refine ⟨(first.points - x.points).toNat, _, hrow, ?_, ?_⟩
  · show first.points - (((first.points - x.points).toNat : Nat) : Int) = x.points
    omega
  · have hmem : x ∈ (first :: rest).filter
        (fun y => first.points - y.points ==
          (((first.points - x.points).toNat : Nat) : Int)) := by
      rw [List.mem_filter]
      refine ⟨hx, ?_⟩
      rw [beq_iff_eq]
      omega
    have hmem2 := List.mem_map_of_mem teamSegment hmem
    obtain ⟨pre, post, hsplit⟩ := concatAll_mem_infix _ _ hmem2
    refine ⟨pre ++ " - ", post, ?_⟩
    show concatAll (((first :: rest).filter
        (fun y => first.points - y.points ==
          (((first.points - x.points).toNat : Nat) : Int))).map teamSegment) =
      pre ++ " - " ++ rowData x ++ post
    rw [strAppend_assoc pre " - " (rowData x)]
    exact hsplit

/-- C3 witness: the amended placement theorem applied to the worked
example of the spec. -/
theorem c3_placement_witness :
    SortedByPointsDesc (exFirst :: exRest) ∧
    (∀ x ∈ exFirst :: exRest, InInt64 x.points) ∧
    exFirst.points - (lastEntry exFirst exRest).points + 1 < 9223372036854775808 ∧
    (∃ rows : List Row, cannFromTable (exFirst :: exRest) = .ok rows ∧
      ∀ x ∈ exFirst :: exRest, ∃ (j : Nat) (r : Row), rows[j]? = some r ∧
        r.points = x.points ∧ ContainsStr r.teams (rowData x)) :=
  ⟨by decide, by decide, by decide,
    c3_placement exFirst exRest (by decide) (by decide) (by decide)⟩

/-! ### Claim C4 -/

/-- C4: every team descriptor appended to a row is the leading
separator " - " followed by [position]shortName(played, signed goal
difference), and the goal difference always carries an explicit sign: a
leading + for nonnegative values (including +0 at zero) and a leading -
for negative ones. -/
theorem c4_descriptor_format (row : TableRow) :
    teamSegment row = " - " ++ "[" ++ fmtD row.position ++ "]" ++ row.team.shortName ++
      "(" ++ fmtD row.played ++ ", " ++ fmtPlusD row.goalDiff ++ ")" ∧
    (0 ≤ row.goalDiff → fmtPlusD row.goalDiff = "+" ++ toString row.goalDiff) ∧
    (row.goalDiff < 0 → fmtPlusD row.goalDiff = "-" ++ toString (-row.goalDiff)) ∧
    (row.goalDiff = 0 → fmtPlusD row.goalDiff = "+0") := by
  refine ⟨?_, ?_, ?_, ?_⟩
  · apply String.ext
    simp [teamSegment, rowData]
  · intro h
    rw [fmtPlusD, if_pos h]
  · intro h
    rw [fmtPlusD, if_neg (by omega)]
    exact toString_int_neg row.goalDiff h
  · intro h
    rw [h, fmtPlusD, if_pos (le_refl 0)]
    decide

/-- C4 witness: the descriptor-format theorem applied to a concrete
entry with goal difference zero, whose descriptor renders as +0. -/
theorem c4_descriptor_format_witness :
    fmtPlusD (⟨⟨4, "CHE"⟩, 4, 10, 20, 0⟩ : TableRow).goalDiff = "+0" ∧
    teamSegment (⟨⟨4, "CHE"⟩, 4, 10, 20, 0⟩ : TableRow) = " - " ++ "[" ++
      fmtD (4 : Int) ++ "]" ++ "CHE" ++ "(" ++ fmtD (10 : Int) ++ ", " ++
      fmtPlusD (0 : Int) ++ ")" :=
  ⟨(c4_descriptor_format ⟨⟨4, "CHE"⟩, 4, 10, 20, 0⟩).2.2.2 rfl,
    (c4_descriptor_format ⟨⟨4, "CHE"⟩, 4, 10, 20, 0⟩).1⟩

/-! ### Claim C5 -/

/-- C5 counterexample: the claim quantifies over every sorted input
with a tie, but on the sorted table with two entries tied on the
extreme points 2^63-1 and a last entry on -2, the Go spread computation
wraps negative and `make` panics, so no output row holds the tied
descriptors. -/
theorem c5_tie_handling_counterexample :
    SortedByPointsDesc wrapTieTable ∧
    2 ≤ (wrapTieTable.filter
      (fun x => x.points == (9223372036854775807 : Int))).length ∧
    cannFromTable wrapTieTable = .panicked .makesliceNegative ∧
    ¬ ∃ rows : List Row, cannFromTable wrapTieTable = .ok rows := by
  refine ⟨by decide, by decide, by decide, ?_⟩
  rintro ⟨rows, h⟩
  rw [show cannFromTable wrapTieTable = .panicked .makesliceNegative by decide] at h
  exact CannResult.noConfusion h

/-- C5 (amended): for every non-empty sorted input with in-range int64
points and a spread maxPoints-minPoints+1 that does not overflow int64,
and every point total shared by two or more entries, the output row
holding that point total has as its teams description exactly the
descriptors of those entries, concatenated in input order, each
prefixed by the " - " separator. -/
theorem c5_tie_handling (first : TableRow) (rest : List TableRow) (p : Int)
    (hs : SortedByPointsDesc (first :: rest))
    (hrange : ∀ x ∈ first :: rest, InInt64 x.points)
    (hspread : first.points - (lastEntry first rest).points + 1 < 9223372036854775808)
    (hties : 2 ≤ ((first :: rest).filter (fun x => x.points == p)).length) :
    ∃ rows : List Row, cannFromTable (first :: rest) = .ok rows ∧
      ∃ (j : Nat) (r : Row), rows[j]? = some r ∧ r.points = p ∧
        r.teams = concatAll (((first :: rest).filter
          (fun x => x.points == p)).map teamSegment) := by
  obtain ⟨rows, h1, h2, h3⟩ := cannFromTable_spec first rest hs hrange hspread
  refine ⟨rows, h1, ?_⟩
  have hne : ((first :: rest).filter (fun x => x.points == p)) ≠ [] := by
    intro hnil
    rw [hnil] at hties
    exact absurd hties (by simp)
  obtain ⟨x, hxf⟩ := List.exists_mem_of_ne_nil _ hne
  have hxmem := List.mem_filter.mp hxf
  have hxp : x.points = p := by
    have := hxmem.2
    rwa [beq_iff_eq] at this
  have hxmax : x.points ≤ first.points := sorted_le_head first rest hs x hxmem.1
  have hxmin : (lastEntry first rest).points ≤ x.points :=
    lastEntry_le first rest hs x hxmem.1
  have h0 : 0 ≤ first.points - p := by omega
  have hjlt : (first.points - p).toNat < rows.length := by omega
  have hrow := h3 _ hjlt
  refine ⟨(first.points - p).toNat, _, hrow, ?_, ?_⟩
  · show first.points - (((first.points - p).toNat : Nat) : Int) = p
    omega
  · show concatAll (((first :: rest).filter
        (fun y => first.points - y.points ==
          (((first.points - p).toNat : Nat) : Int))).map teamSegment) =
      concatAll (((first :: rest).filter (fun y => y.points == p)).map teamSegment)
    have hcongr : (first :: rest).filter
        (fun y => first.points - y.points ==
          (((first.points - p).toNat : Nat) : Int)) =
        (first :: rest).filter (fun y => y.points == p) := by
      apply List.filter_congr
      intro y _
      by_cases hyp : y.points = p
      · have ha : (first.points - y.points ==
            (((first.points - p).toNat : Nat) : Int)) = true := by
          rw [beq_iff_eq]
          omega
        have hb : (y.points == p) = true := by
          rw [beq_iff_eq]
          exact hyp
        rw [ha, hb]
      · have ha : (first.points - y.points ==
            (((first.points - p).toNat : Nat) : Int)) = false := by
          rw [beq_eq_false_iff_ne]
          intro hv
          exact hyp (by omega)
        have hb : (y.points == p) = false := by
          rw [beq_eq_false_iff_ne]
          exact hyp
        rw [ha, hb]
    rw [hcongr]

/-- C5 witness: the amended tie-handling theorem applied to the worked
example of the spec, where ARS and LIV are tied on 25 points. -/
theorem c5_tie_handling_witness :
    SortedByPointsDesc (exFirst :: exRest) ∧
    (∀ x ∈ exFirst :: exRest, InInt64 x.points) ∧
    exFirst.points - (lastEntry exFirst exRest).points + 1 < 9223372036854775808 ∧
    2 ≤ ((exFirst :: exRest).filter (fun x => x.points == (25 : Int))).length ∧
    (∃ rows : List Row, cannFromTable (exFirst :: exRest) = .ok rows ∧
      ∃ (j : Nat) (r : Row), rows[j]? = some r ∧ r.points = (25 : Int) ∧
        r.teams = concatAll (((exFirst :: exRest).filter
          (fun x => x.points == (25 : Int))).map teamSegment)) :=
  ⟨by decide, by decide, by decide, by decide,
    c5_tie_handling exFirst exRest 25 (by decide) (by decide) (by decide) (by decide)⟩

/-! ### Claim C6 -/

/-- C6 counterexample: on a decoded payload whose standings table has
zero entries, the transformer hits the unguarded `standingsTable[0]`
and panics with index out of range; it does not return a descriptive
error value (and produces no row sequence). -/
theorem c6_empty_input_counterexample :
    generateCann emptyTableResponse = .panicked .indexOutOfRange ∧
    (generateCann emptyTableResponse).isGoError = false ∧
    (generateCann emptyTableResponse).isOk = false :=
  ⟨rfl, rfl, rfl⟩

/-- C6 (amended): when the input standings table contains zero entries
the transformer fails and produces no row sequence, but the failure is
an index-out-of-range runtime panic at the unguarded first-entry
access, not a descriptive EmptyInput error value returned to the
caller. -/
theorem c6_empty_input (dr : DataResponse) (s : Standings) (tail : List Standings)
    (h1 : dr.standings = s :: tail) (h2 : s.table = []) :
    generateCann dr = .panicked .indexOutOfRange ∧
    (generateCann dr).isGoError = false ∧
    (generateCann dr).isOk = false := by
  have hg : generateCann dr = cannFromTable s.table := by
    rw [generateCann, h1]
  rw [hg, h2]
  exact ⟨rfl, rfl, rfl⟩

/-- C6 witness: the amended empty-table theorem applied to the concrete
empty-table payload. -/
theorem c6_empty_input_witness :
    emptyTableResponse.standings = [⟨[]⟩] ∧
    generateCann emptyTableResponse = .panicked .indexOutOfRange ∧
    (generateCann emptyTableResponse).isGoError = false ∧
    (generateCann emptyTableResponse).isOk = false :=
  ⟨rfl, c6_empty_input emptyTableResponse ⟨[]⟩ [] rfl rfl⟩

/-! ### Claim C7 -/

/-- C7 counterexample: the claim asserts the transformer completes on
every non-empty table including ordering-violating ones, but on a table
whose first and last entries tie on 5 points with a 4-point entry in
between, the bucket index 1 falls outside the single allocated row and
the transformer panics instead of returning a table. -/
theorem c7_no_other_failure_counterexample :
    cannFromTable unsortedC7 = .panicked .indexOutOfRange ∧
    ¬ ∃ rows : List Row, cannFromTable unsortedC7 = .ok rows := by
  refine ⟨by decide, ?_⟩
  rintro ⟨rows, h⟩
  rw [show cannFromTable unsortedC7 = .panicked .indexOutOfRange by decide] at h
  exact CannResult.noConfusion h

/-- C7 (amended): on every non-empty table satisfying the
descending-points precondition, with in-range int64 points and a spread
maxPoints-minPoints+1 that does not overflow int64, the transformer
completes and returns a table; it never returns a Go error value for
any table input — its only failure modes are runtime panics (empty
table, and allocation or indexing panics on precondition-violating or
int64-overflowing input). -/
theorem c7_no_other_failure (first : TableRow) (rest : List TableRow)
    (hs : SortedByPointsDesc (first :: rest))
    (hrange : ∀ x ∈ first :: rest, InInt64 x.points)
    (hspread : first.points - (lastEntry first rest).points + 1 < 9223372036854775808) :
    (∃ rows : List Row, cannFromTable (first :: rest) = .ok rows) ∧
    ∀ t : List TableRow, (cannFromTable t).isGoError = false := by
  constructor
  · obtain ⟨rows, h1, _, _⟩ := cannFromTable_spec first rest hs hrange hspread
    exact ⟨rows, h1⟩
  · intro t
    cases t with
    | nil => rfl
    | cons f r =>
      simp only [cannFromTable]
      split
      · rfl
      · split
        · rfl
        · rfl

/-- C7 witness: the amended completion theorem applied to the worked
example of the spec. -/
theorem c7_no_other_failure_witness :
    SortedByPointsDesc (exFirst :: exRest) ∧
    (∀ x ∈ exFirst :: exRest, InInt64 x.points) ∧
    exFirst.points - (lastEntry exFirst exRest).points + 1 < 9223372036854775808 ∧
    ((∃ rows : List Row, cannFromTable (exFirst :: exRest) = .ok rows) ∧
      ∀ t : List TableRow, (cannFromTable t).isGoError = false) :=
  ⟨by decide, by decide, by decide,
    c7_no_other_failure exFirst exRest (by decide) (by decide) (by decide)⟩

/-! ### Claim C8 -/

/-- C8: the transformer consumes only the first element of the
top-level standings list — two decoded payloads agreeing on that first
element produce identical results, whatever further standings elements
either of them carries. -/
theorem c8_first_standings_only (d1 d2 : DataResponse) (s : Standings)
    (h1 : d1.standings.head? = some s) (h2 : d2.standings.head? = some s) :
    generateCann d1 = generateCann d2 := by
  cases d1 with
  | mk l1 =>
    cases d2 with
    | mk l2 =>
      cases l1 with
      | nil => exact absurd h1 (by simp)
      | cons a t1 =>
        cases l2 with
        | nil => exact absurd h2 (by simp)
        | cons b t2 =>
          have ha : a = s := by simpa using h1
          have hb : b = s := by simpa using h2
          rw [generateCann, generateCann]
          rw [ha, hb]

/-- C8 witness: two payloads sharing the worked example as their first
standings element — one with an extra trailing standings element — map
to the same result. -/
theorem c8_first_standings_only_witness :
    (DataResponse.mk [⟨exFirst :: exRest⟩]).standings.head? = some ⟨exFirst :: exRest⟩ ∧
    (DataResponse.mk [⟨exFirst :: exRest⟩, ⟨[]⟩]).standings.head? =
      some ⟨exFirst :: exRest⟩ ∧
    generateCann (DataResponse.mk [⟨exFirst :: exRest⟩]) =
      generateCann (DataResponse.mk [⟨exFirst :: exRest⟩, ⟨[]⟩]) :=
  ⟨rfl, rfl, c8_first_standings_only
    (DataResponse.mk [⟨exFirst :: exRest⟩])
    (DataResponse.mk [⟨exFirst :: exRest⟩, ⟨[]⟩])
    ⟨exFirst :: exRest⟩ rfl rfl⟩

/-! ### Claim C9 -/

/-- C9 counterexample: the claim quantifies over every sorted non-empty
input, but on the sorted table with extreme int64 points 2^63-1 and -2
the Go spread computation wraps negative and `make` panics, so there
are no output rows and no descriptor segments at all — not one per
entry. -/
theorem c9_descriptor_count_counterexample :
    SortedByPointsDesc wrapTable ∧
    cannFromTable wrapTable = .panicked .makesliceNegative ∧
    ¬ ∃ rows : List Row, cannFromTable wrapTable = .ok rows := by
  refine ⟨by decide, by decide, ?_⟩
  rintro ⟨rows, h⟩
  rw [show cannFromTable wrapTable = .panicked .makesliceNegative by decide] at h
  exact CannResult.noConfusion h

/-- C9 (amended): for every non-empty input sorted by descending
points, with in-range int64 points and a spread maxPoints-minPoints+1
that does not overflow int64, each row's teams string is exactly the
concatenation of the descriptor segments of the entries bucketed to it,
and the total number of those segments summed over all output rows
equals the number of input entries — each entry contributes exactly one
descriptor. -/
theorem c9_descriptor_count (first : TableRow) (rest : List TableRow)
    (hs : SortedByPointsDesc (first :: rest))
    (hrange : ∀ x ∈ first :: rest, InInt64 x.points)
    (hspread : first.points - (lastEntry first rest).points + 1 < 9223372036854775808) :
    ∃ rows : List Row, cannFromTable (first :: rest) = .ok rows ∧
      (∀ (j : Nat) (r : Row), rows[j]? = some r →
        r.teams = concatAll (((first :: rest).filter
          (fun x => first.points - x.points == (j : Int))).map teamSegment)) ∧
      (∑ j in Finset.range rows.length,
        (((first :: rest).filter
          (fun x => first.points - x.points == (j : Int))).map teamSegment).length)
        = (first :: rest).length := by
  obtain ⟨rows, h1, h2, h3⟩ := cannFromTable_spec first rest hs hrange hspread
  refine ⟨rows, h1, ?_, ?_⟩
  · intro j r hj
    have hlt := getElem?_some_lt rows j r hj
    have e1 := h3 j hlt
    rw [hj] at e1
    rw [Option.some.inj e1]
  · have hstep : ∀ j ∈ Finset.range rows.length,
        (((first :: rest).filter
          (fun x => first.points - x.points == (j : Int))).map teamSegment).length =
        ((first :: rest).filter
          (fun x => first.points - x.points == (j : Int))).length := by
      intro j _
      simp
    rw [Finset.sum_congr rfl hstep]
    apply sum_filter_lengths
    intro x hx
    have hxmax := sorted_le_head first rest hs x hx
    have hxmin := lastEntry_le first rest hs x hx
    exact ⟨by omega, by omega⟩

/-- C9 witness: the amended descriptor-count theorem applied to the
worked example of the spec (three entries, three segments over four
rows). -/
theorem c9_descriptor_count_witness :
    SortedByPointsDesc (exFirst :: exRest) ∧
    (∀ x ∈ exFirst :: exRest, InInt64 x.points) ∧
    exFirst.points - (lastEntry exFirst exRest).points + 1 < 9223372036854775808 ∧
    (∃ rows : List Row, cannFromTable (exFirst :: exRest) = .ok rows ∧
      (∀ (j : Nat) (r : Row), rows[j]? = some r →
        r.teams = concatAll (((exFirst :: exRest).filter
          (fun x => exFirst.points - x.points == (j : Int))).map teamSegment)) ∧
      (∑ j in Finset.range rows.length,
        (((exFirst :: exRest).filter
          (fun x => exFirst.points - x.points == (j : Int))).map teamSegment).length)
        = (exFirst :: exRest).length) :=
  ⟨by decide, by decide, by decide,
    c9_descriptor_count exFirst exRest (by decide) (by decide) (by decide)⟩

/-! ### Claim C10 -/

/-- C10: a well-formed payload that decodes successfully but whose
top-level standings list is empty makes the unguarded
`dataResponse.Standings[0]` access panic: the transformer neither
returns an error value nor a table, so this edge case surfaces as a
runtime panic rather than a distinct failure. -/
theorem c10_empty_standings_unguarded :
    generateCann emptyStandingsResponse = .panicked .indexOutOfRange ∧
    (generateCann emptyStandingsResponse).isOk = false ∧
    (generateCann emptyStandingsResponse).isGoError = false :=
  ⟨rfl, rfl, rfl⟩

end Moh.Cann
